import Mathlib

/-!
Verification of the Chain protocol validation core: a shallow embedding of
`Mux.CheckValid` and `Nonce.CheckValid` (package `protocol/bc`) and of the
`opCheckOutput` opcode (package `protocol/vm`), together with theorems about
the per-asset balance computation, the version-1 extension-hash rule, the
nonce time-range rule, and the CheckOutput matching behaviour.

Machine integers are embedded as `Nat` (for Go `uint64`) and `Int` with
explicit range checks (for Go `int64`); Go's wrapping conversion
`int64(u)` of a `uint64` is embedded explicitly as `int64OfUint64`.
-/

namespace ChainBC

/-- A 32-byte digest (`bc.Hash`), abstracted as its numeric value; only
equality (in particular equality with the all-zero hash) is used by the
validation code under study. -/
structure Hash where
  val : Nat
deriving DecidableEq

/-- The all-zero hash, Go's `Hash{}`. -/
def Hash.zero : Hash := ⟨0⟩

/-- A 32-byte asset identifier (`bc.AssetID`), abstracted as a value with
decidable equality. -/
structure AssetID where
  val : Nat
deriving DecidableEq

/-- Modelled from the spec: `AssetAmount` is `{AssetID, Amount: u64}`
(its Go definition is outside the sampled sources). -/
structure AssetAmount where
  assetID : AssetID
  amount : Nat
deriving DecidableEq

/-- Modelled from the spec: a VM program with a VM version and code bytes. -/
structure Program where
  vmVersion : Nat
  code : List Nat
deriving DecidableEq

/-- Modelled from the spec: `ValueSource` is `{Ref: EntryID, Value: AssetAmount,
Position: u64}`. -/
structure valueSource where
  ref : Hash
  value : AssetAmount
  position : Nat
deriving DecidableEq

/-- Modelled from the spec: `ValueDestination`, symmetric to `valueSource`. -/
structure ValueDestination where
  ref : Hash
  value : AssetAmount
  position : Nat
deriving DecidableEq

/-- The part of `TxEntries` read by the validation code under study:
`currentTx.body.Version`. -/
structure TxEntries where
  version : Nat
deriving DecidableEq

/-- The `validationState` threaded through recursive validation
(`protocol/bc/validation.go`). `prevBlockHeader` is abstracted to the
header's hash. -/
structure ValidationState where
  blockVersion : Nat
  initialBlockID : Hash
  currentTx : TxEntries
  currentEntryID : Hash
  sourcePosition : Nat
  destPosition : Nat
  timestampMS : Nat
  prevBlockHeader : Option Hash
  prevBlockHeaderID : Hash
  blockTxs : List TxEntries
deriving DecidableEq

/-- The `Mux` entry (`protocol/bc/mux.go`): body sources, program and
extension hash; witness destinations and arguments. -/
structure Mux where
  sources : List valueSource
  program : Program
  extHash : Hash
  destinations : List ValueDestination
  arguments : List (List Nat)

/-- Errors produced by `Mux.CheckValid`.  `sourceError`/`destError`/
`programError` stand for a propagated error of a recursive check, wrapped
with the index as in the Go code; `arithmeticOverflow` is `errOverflow`
with its detail (whether it arose adding a source or subtracting a
destination, the index and the asset); `noMatchingSource` is `errNoSource`
with the destination index and asset; `unbalanced` is `errUnbalanced` with
the detail naming the asset and the residual. -/
inductive MuxError
  | programError
  | sourceError (i : Nat)
  | destError (i : Nat)
  | arithmeticOverflow (fromSource : Bool) (i : Nat) (a : AssetID)
  | noMatchingSource (i : Nat) (a : AssetID)
  | unbalanced (a : AssetID) (residual : Int)
  | nonemptyExtHash
deriving DecidableEq

/-- Minimum value of a signed 64-bit integer. -/
def int64MinZ : Int := -(2 ^ 63)

/-- Maximum value of a signed 64-bit integer. -/
def int64MaxZ : Int := 2 ^ 63 - 1

/-- Go's conversion `int64(u)` of a `uint64` value `u`: two's-complement
reinterpretation, so values at least `2^63` wrap to negative numbers. -/
def int64OfUint64 (u : Nat) : Int :=
  if u < 2 ^ 63 then (u : Int) else (u : Int) - 2 ^ 64

/-- Modelled from the spec: `chain/math/checked.AddInt64` (the `checked`
package is outside the sampled sources) — signed 64-bit addition that
reports failure instead of overflowing. -/
def AddInt64 (a b : Int) : Option Int :=
  if int64MinZ ≤ a + b ∧ a + b ≤ int64MaxZ then some (a + b) else none

/-- Modelled from the spec: `chain/math/checked.SubInt64` — signed 64-bit
subtraction that reports failure instead of overflowing. -/
def SubInt64 (a b : Int) : Option Int :=
  if int64MinZ ≤ a - b ∧ a - b ≤ int64MaxZ then some (a - b) else none

/-- The per-asset parity map `map[AssetID]int64`, embedded as an
association list; Go map iteration order is arbitrary, here it is the
insertion order (order-independence of the verdict is proved separately). -/
abbrev Parity := List (AssetID × Int)

/-- Map lookup (comma-ok form). -/
def Parity.lookup : Parity → AssetID → Option Int
  | [], _ => none
  | (k, v) :: rest, a => if k = a then some v else Parity.lookup rest a

/-- Map update: replace the value at an existing key, else append. -/
def Parity.insert : Parity → AssetID → Int → Parity
  | [], a, v => [(a, v)]
  | (k, w) :: rest, a, v =>
      if k = a then (k, v) :: rest else (k, w) :: Parity.insert rest a v

/-- The first loop of the parity computation (`mux.go` lines 67-73): for
each source, add `int64(src.Value.Amount)` into the parity of its asset
with `checked.AddInt64`; a read of a missing key yields the zero value. -/
def addSources : List valueSource → Nat → Parity → Except MuxError Parity
  | [], _, m => .ok m
  | src :: rest, i, m =>
      match AddInt64 ((m.lookup src.value.assetID).getD 0)
          (int64OfUint64 src.value.amount) with
      | none => .error (.arithmeticOverflow true i src.value.assetID)
      | some sum => addSources rest (i + 1) (m.insert src.value.assetID sum)

/-- The second loop (`mux.go` lines 75-86): for each destination, require
an existing parity entry for its asset (else `errNoSource`), then subtract
`int64(dest.Value.Amount)` with `checked.SubInt64`. -/
def subDests : List ValueDestination → Nat → Parity → Except MuxError Parity
  | [], _, m => .ok m
  | dest :: rest, i, m =>
      match m.lookup dest.value.assetID with
      | none => .error (.noMatchingSource i dest.value.assetID)
      | some sum =>
          match SubInt64 sum (int64OfUint64 dest.value.amount) with
          | none => .error (.arithmeticOverflow false i dest.value.assetID)
          | some diff => subDests rest (i + 1) (m.insert dest.value.assetID diff)

/-- The final loop (`mux.go` lines 88-92): report the first asset whose
residual parity is nonzero, if any. -/
def balanceCheck : Parity → Option (AssetID × Int)
  | [] => none
  | (a, v) :: rest => if v ≠ 0 then some (a, v) else balanceCheck rest

/-- The state passed when descending into the `i`-th source
(`mux.go` lines 49-50): a copy of the caller's state with
`sourcePosition = i`. -/
def srcStateAt (s : ValidationState) (i : Nat) : ValidationState :=
  { s with sourcePosition := i }

/-- The state passed when descending into the `i`-th destination
(`mux.go` lines 58-59): a copy of the caller's state with
`destPosition = i`. -/
def destStateAt (s : ValidationState) (i : Nat) : ValidationState :=
  { s with destPosition := i }

/-- The source-validation loop (`mux.go` lines 48-55): recursive checks of
the sources are abstracted by the predicate `f`; the first failure aborts,
wrapped with its source index. -/
def checkSources (f : valueSource → ValidationState → Bool)
    (s : ValidationState) : List valueSource → Nat → Option MuxError
  | [], _ => none
  | src :: rest, i =>
      if f src (srcStateAt s i) then checkSources f s rest (i + 1)
      else some (.sourceError i)

/-- The destination-validation loop (`mux.go` lines 57-64). -/
def checkDests (f : ValueDestination → ValidationState → Bool)
    (s : ValidationState) : List ValueDestination → Nat → Option MuxError
  | [], _ => none
  | d :: rest, i =>
      if f d (destStateAt s i) then checkDests f s rest (i + 1)
      else some (.destError i)

/-- `Mux.CheckValid` (`mux.go` lines 42-99).  `vmVerify` abstracts
`vm.Verify` of the guarding program, `srcCheck`/`destCheck` abstract the
recursive `CheckValid` of each source/destination entry.  Returns `none`
on success, `some e` on the first failure, in the order of the Go code:
program check, source checks, destination checks, parity accumulation,
parity zero check, version-1 extension-hash check. -/
def Mux.CheckValid (vmVerify : Mux → ValidationState → Bool)
    (srcCheck : valueSource → ValidationState → Bool)
    (destCheck : ValueDestination → ValidationState → Bool)
    (mux : Mux) (state : ValidationState) : Option MuxError :=
  if ¬ vmVerify mux state then some .programError
  else
    match checkSources srcCheck state mux.sources 0 with
    | some e => some e
    | none =>
      match checkDests destCheck state mux.destinations 0 with
      | some e => some e
      | none =>
        match addSources mux.sources 0 [] with
        | .error e => some e
        | .ok m1 =>
          match subDests mux.destinations 0 m1 with
          | .error e => some e
          | .ok m2 =>
            match balanceCheck m2 with
            | some av => some (.unbalanced av.1 av.2)
            | none =>
              if state.currentTx.version = 1 ∧ mux.extHash ≠ Hash.zero then
                some .nonemptyExtHash
              else none

/-- Modelled from the spec: the body of a `TimeRange` entry has minimum and
maximum timestamps in milliseconds (the `TimeRange` Go type is outside the
sampled sources; `nonce.go` reads `body.MinTimeMS` and `body.MaxTimeMS`). -/
structure TimeRange where
  minTimeMS : Nat
  maxTimeMS : Nat
deriving DecidableEq

/-- The `Nonce` entry (`protocol/bc/nonce.go`): guarding program, reference
to a time range, extension hash, and the manifested `TimeRange` entry. -/
structure Nonce where
  program : Program
  timeRangeID : Hash
  extHash : Hash
  timeRange : TimeRange

/-- Errors produced by `Nonce.CheckValid`: a wrapped program-verification
error, `errZeroTime`, or `errNonemptyExtHash`. -/
inductive NonceError
  | programError
  | zeroTimeRange
  | nonemptyExtHash
deriving DecidableEq

/-- `Nonce.CheckValid` (`nonce.go` lines 46-63): verify the guarding
program, require both time-range bounds non-zero, and under transaction
version 1 require an all-zero extension hash. -/
def Nonce.CheckValid (vmVerify : Nonce → ValidationState → Bool)
    (n : Nonce) (state : ValidationState) : Option NonceError :=
  if ¬ vmVerify n state then some .programError
  else if n.timeRange.minTimeMS = 0 ∨ n.timeRange.maxTimeMS = 0 then
    some .zeroTimeRange
  else if state.currentTx.version = 1 ∧ n.extHash ≠ Hash.zero then
    some .nonemptyExtHash
  else none

/-! ## The virtual machine fragment required by `opCheckOutput` -/

/-- Errors of the virtual machine fragment: `ErrContext`, `ErrBadValue`,
the run-limit error of `applyCost`, stack underflow on `pop`, and an
opaque error propagated unchanged from `tx.MuxDest`. -/
inductive VMError
  | context
  | badValue
  | runLimitExceeded
  | stackUnderflow
  | muxDestFailed (n : Nat)
deriving DecidableEq

/-- The data returned by `vm.tx.MuxDest(index)`: whether the resolved
destination is a retirement, and its asset ID bytes, amount, reference
data, VM version and code. -/
structure MuxDestInfo where
  isRetirement : Bool
  assetID : List Nat
  amount : Nat
  data : List Nat
  vmVersion : Nat
  code : List Nat
deriving DecidableEq

/-- Modelled from the spec: the transaction context queried by
`opCheckOutput` (`vm.tx`); `destIsMux i` answers `DestIsMux(i)` (whether
input `i`'s value goes to a Mux) and `muxDest j` answers `MuxDest(j)`
(resolving the Mux's destination at index `j`). The Go types carrying
these methods are outside the sampled sources. -/
structure TxContext where
  destIsMux : Nat → Bool
  muxDest : Nat → Except VMError MuxDestInfo

/-- The fragment of `virtualMachine` state read and written by
`opCheckOutput`: the optional transaction context, the input index, the
remaining run limit, and the data stack of byte strings. -/
structure virtualMachine where
  tx : Option TxContext
  inputIndex : Nat
  runLimit : Int
  dataStack : List (List Nat)

/-- Modelled from the spec: `vm.applyCost(n)` deducts `n` from the run
limit and fails with the run-limit error once the budget is exhausted. -/
def applyCost (n : Int) (vm : virtualMachine) : Except VMError virtualMachine :=
  if vm.runLimit - n < 0 then .error .runLimitExceeded
  else .ok { vm with runLimit := vm.runLimit - n }

/-- Modelled from the spec: `vm.pop` removes and returns the top byte
string of the data stack. -/
def pop (vm : virtualMachine) : Except VMError (List Nat × virtualMachine) :=
  match vm.dataStack with
  | [] => .error .stackUnderflow
  | top :: rest => .ok (top, { vm with dataStack := rest })

/-- Modelled from the spec: `vm.popInt64` pops a byte string and decodes
it as a signed 64-bit integer; the byte encoding of numbers is not fixed
by the sampled sources, so the decoder `dec` is a parameter (failure to
decode is `ErrBadValue`). -/
def popInt64 (dec : List Nat → Option Int) (vm : virtualMachine) :
    Except VMError (Int × virtualMachine) :=
  match pop vm with
  | .error e => .error e
  | .ok bv =>
      match dec bv.1 with
      | none => .error .badValue
      | some n => .ok (n, bv.2)

/-- The byte-string encoding of a boolean pushed by `vm.pushBool`: a
truthy single byte for true, the empty string for false. -/
def boolBytes (b : Bool) : List Nat := if b then [1] else []

/-- Modelled from the spec: `vm.pushBool(b)` pushes the encoding of `b`
onto the data stack. -/
def pushBool (b : Bool) (vm : virtualMachine) : Except VMError virtualMachine :=
  .ok { vm with dataStack := boolBytes b :: vm.dataStack }

/-- Modelled from the spec: the byte value of the VM's FAIL opcode
(`OP_FAIL`); its exact value is outside the sampled sources, and no
theorem below depends on the choice. -/
def opFailByte : Nat := 89

/-- Maximum value of an unsigned 32-bit integer, `math.MaxUint32`. -/
def maxUint32Z : Int := 2 ^ 32 - 1

/-- The guard `someChecks` inside `opCheckOutput` (`nonce.go` lines
130-141): the resolved destination's asset ID and amount must equal the
popped ones, and when a non-empty `refdatahash` was supplied it must equal
the destination's reference data.  `amount` is the popped (non-negative)
integer, compared after Go's `uint64(amount)` conversion. -/
def someChecks (assetID : List Nat) (amount : Int) (refdatahash : List Nat)
    (d : MuxDestInfo) : Bool :=
  d.assetID = assetID ∧ d.amount = amount.toNat ∧
    (refdatahash ≠ [] → refdatahash = d.data)

/-- `opCheckOutput` (`nonce.go` lines 72-167): require a transaction
context, apply cost 16, pop `code`, `vmVersion`, `assetID`, `amount`,
`refdatahash`, `index` in order with sign and range guards, require the
current input's destination to be a Mux, resolve the Mux destination at
`index`, and push the boolean comparison result. -/
def opCheckOutput (dec : List Nat → Option Int) (vm : virtualMachine) :
    Except VMError virtualMachine :=
  match vm.tx with
  | none => .error .context
  | some tx =>
    match applyCost 16 vm with
    | .error e => .error e
    | .ok vm1 =>
      match pop vm1 with
      | .error e => .error e
      | .ok cv =>
        match popInt64 dec cv.2 with
        | .error e => .error e
        | .ok vv =>
          if vv.1 < 0 then .error .badValue
          else
            match pop vv.2 with
            | .error e => .error e
            | .ok av =>
              match popInt64 dec av.2 with
              | .error e => .error e
              | .ok amv =>
                if amv.1 < 0 then .error .badValue
                else
                  match pop amv.2 with
                  | .error e => .error e
                  | .ok rv =>
                    match popInt64 dec rv.2 with
                    | .error e => .error e
                    | .ok iv =>
                      if iv.1 < 0 then .error .badValue
                      else if maxUint32Z < iv.1 then .error .badValue
                      else if ¬ tx.destIsMux vm.inputIndex then .error .context
                      else
                        match tx.muxDest iv.1.toNat with
                        | .error e => .error e
                        | .ok d =>
                          if ¬ someChecks av.1 amv.1 rv.1 d then
                            pushBool false iv.2
                          else if d.isRetirement then
                            if vv.1 = 1 ∧ cv.1.head? = some opFailByte then
                              pushBool true iv.2
                            else pushBool false iv.2
                          else if d.vmVersion ≠ vv.1.toNat then
                            pushBool false iv.2
                          else if d.code ≠ cv.1 then pushBool false iv.2
                          else pushBool true iv.2

/-! ## Derived quantities and concrete inputs used in the theorems -/

/-- Sum over the sources of asset `a` of the int64-converted amounts. -/
def srcSumZ : List valueSource → AssetID → Int
  | [], _ => 0
  | s :: rest, a =>
      (if s.value.assetID = a then int64OfUint64 s.value.amount else 0) +
        srcSumZ rest a

/-- Sum over the destinations of asset `a` of the int64-converted amounts. -/
def destSumZ : List ValueDestination → AssetID → Int
  | [], _ => 0
  | d :: rest, a =>
      (if d.value.assetID = a then int64OfUint64 d.value.amount else 0) +
        destSumZ rest a

/-- A sample asset identifier. -/
def assetA : AssetID := ⟨1⟩

/-- A trivial program used in concrete examples. -/
def progTrue : Program := ⟨1, [81]⟩

/-- A validation state for a version-1 transaction. -/
def v1State : ValidationState :=
  ⟨1, Hash.zero, ⟨1⟩, Hash.zero, 0, 0, 0, none, Hash.zero, []⟩

/-- A validation state for a version-2 transaction. -/
def v2State : ValidationState :=
  ⟨1, Hash.zero, ⟨2⟩, Hash.zero, 0, 0, 0, none, Hash.zero, []⟩

/-- The spec's balanced scenario: sources `[(assetA, 100)]`, destinations
`[(assetA, 60), (assetA, 40)]`. -/
def scenario1Mux : Mux :=
  ⟨[⟨Hash.zero, ⟨assetA, 100⟩, 0⟩], progTrue, Hash.zero,
    [⟨⟨2⟩, ⟨assetA, 60⟩, 0⟩, ⟨⟨3⟩, ⟨assetA, 40⟩, 0⟩], []⟩

/-- The spec's unbalanced scenario: the second destination changed to 41. -/
def scenario2Mux : Mux :=
  ⟨[⟨Hash.zero, ⟨assetA, 100⟩, 0⟩], progTrue, Hash.zero,
    [⟨⟨2⟩, ⟨assetA, 60⟩, 0⟩, ⟨⟨3⟩, ⟨assetA, 41⟩, 0⟩], []⟩

/-- A Mux whose single source's u64 amount `2^63` exceeds the signed-64
maximum, balanced by a destination of the same amount. -/
def wrapMux : Mux :=
  ⟨[⟨Hash.zero, ⟨assetA, 2 ^ 63⟩, 0⟩], progTrue, Hash.zero,
    [⟨⟨2⟩, ⟨assetA, 2 ^ 63⟩, 0⟩], []⟩

/-- A Mux with two sources of `2^63 - 1` units of one asset, whose running
int64 parity overflows at the second source. -/
def overflowMux : Mux :=
  ⟨[⟨Hash.zero, ⟨assetA, 2 ^ 63 - 1⟩, 0⟩, ⟨⟨4⟩, ⟨assetA, 2 ^ 63 - 1⟩, 1⟩],
    progTrue, Hash.zero, [], []⟩

/-- A check function accepting every source. -/
def okSrc : valueSource → ValidationState → Bool := fun _ _ => true

/-- A check function accepting every destination. -/
def okDest : ValueDestination → ValidationState → Bool := fun _ _ => true

/-- A program verifier accepting every Mux. -/
def okMuxVM : Mux → ValidationState → Bool := fun _ _ => true

/-- A program verifier accepting every Nonce. -/
def okNonceVM : Nonce → ValidationState → Bool := fun _ _ => true

/-- A Nonce whose time range has a zero minimum bound. -/
def zeroMinNonce : Nonce := ⟨progTrue, Hash.zero, Hash.zero, ⟨0, 5⟩⟩

/-- A Nonce with a proper time range and a non-zero extension hash. -/
def extNonce : Nonce := ⟨progTrue, Hash.zero, ⟨7⟩, ⟨1, 5⟩⟩

/-- A Mux with no sources or destinations and a non-zero extension hash. -/
def extMux : Mux := ⟨[], progTrue, ⟨7⟩, [], []⟩

/-- A resolved Mux destination that is a retirement. -/
def wDestInfo : MuxDestInfo := ⟨true, [1, 2], 5, [9], 1, []⟩

/-- A resolved Mux destination that is an ordinary output. -/
def wDestInfo2 : MuxDestInfo := ⟨false, [1, 2], 5, [9], 1, [7, 7]⟩

/-- A transaction context resolving destination 0 to a retirement and
destination 1 to an ordinary output. -/
def wTxContext : TxContext :=
  ⟨fun _ => true, fun j => if j = 0 then .ok wDestInfo else .ok wDestInfo2⟩

/-- A concrete signed-integer decoder: a two-byte string is a sign byte
followed by a magnitude byte. -/
def wDec : List Nat → Option Int
  | [0, b] => some b
  | [1, b] => some (-(b : Int))
  | _ => none

/-- A concrete VM about to run CheckOutput against the retirement
destination with vmVersion 1 and code beginning with the FAIL opcode. -/
def wVM3 : virtualMachine :=
  ⟨some wTxContext, 0, 100, [[89], [0, 1], [1, 2], [0, 5], [], [0, 0]]⟩

/-- A concrete VM whose CheckOutput operands include a negative
vmVersion. -/
def wVM7 : virtualMachine :=
  ⟨some wTxContext, 0, 100, [[], [1, 1], [], [0, 0], [], [0, 0]]⟩

/-- A Mux whose single destination's asset has no source. -/
def noSrcMux : Mux :=
  ⟨[⟨Hash.zero, ⟨assetA, 5⟩, 0⟩], progTrue, Hash.zero,
    [⟨⟨2⟩, ⟨⟨2⟩, 1⟩, 0⟩], []⟩

/-! ## Helper lemmas -/

theorem lookup_insert (m : Parity) (k a : AssetID) (v : Int) :
    (m.insert k v).lookup a = if k = a then some v else m.lookup a := by
  induction m with
  | nil => simp [Parity.insert, Parity.lookup]
  | cons p rest ih =>
    obtain ⟨pk, pv⟩ := p
    by_cases hk : pk = k
    · subst hk
      by_cases ha : pk = a <;>
        simp [Parity.insert, Parity.lookup, ha]
    · by_cases ha : pk = a
      · subst ha
        have : ¬ k = pk := fun h => hk h.symm
        simp [Parity.insert, Parity.lookup, hk, this]
      · simp [Parity.insert, Parity.lookup, hk, ha, ih]

theorem lookup_insert_isSome (m : Parity) (k a : AssetID) (v : Int)
    (h : (m.lookup a).isSome) : ((m.insert k v).lookup a).isSome := by
  rw [lookup_insert]
  split <;> simp [h]

theorem balanceCheck_none_iff (m : Parity) :
    balanceCheck m = none ↔ ∀ p ∈ m, p.2 = (0 : Int) := by
  induction m with
  | nil => simp [balanceCheck]
  | cons p rest ih =>
    obtain ⟨a, v⟩ := p
    by_cases hv : v = 0 <;> simp [balanceCheck, hv, ih]

theorem balanceCheck_mem (m : Parity) (av : AssetID × Int)
    (h : balanceCheck m = some av) : av ∈ m ∧ av.2 ≠ 0 := by
  induction m with
  | nil => simp [balanceCheck] at h
  | cons p rest ih =>
    obtain ⟨a, v⟩ := p
    by_cases hv : v = 0
    · simp only [balanceCheck, hv] at h
      have := ih (by simpa using h)
      exact ⟨List.mem_cons_of_mem _ this.1, this.2⟩
    · simp only [balanceCheck, hv] at h
      simp only [if_pos (by exact hv)] at h
      cases h
      exact ⟨List.mem_cons_self _ _, hv⟩

theorem AddInt64_eq (x y s : Int) (h : AddInt64 x y = some s) : s = x + y := by
  unfold AddInt64 at h
  split at h
  · exact (Option.some_inj.mp h).symm
  · exact absurd h (by simp)

theorem SubInt64_eq (x y s : Int) (h : SubInt64 x y = some s) : s = x - y := by
  unfold SubInt64 at h
  split at h
  · exact (Option.some_inj.mp h).symm
  · exact absurd h (by simp)

theorem checkSources_shape (f : valueSource → ValidationState → Bool)
    (s : ValidationState) (l : List valueSource) (i : Nat) (e : MuxError)
    (h : checkSources f s l i = some e) : ∃ j, e = .sourceError j := by
  induction l generalizing i with
  | nil => simp [checkSources] at h
  | cons src rest ih =>
    unfold checkSources at h
    split at h
    · exact ih _ h
    · exact ⟨i, (Option.some_inj.mp h).symm⟩

theorem checkDests_shape (f : ValueDestination → ValidationState → Bool)
    (s : ValidationState) (l : List ValueDestination) (i : Nat) (e : MuxError)
    (h : checkDests f s l i = some e) : ∃ j, e = .destError j := by
  induction l generalizing i with
  | nil => simp [checkDests] at h
  | cons d rest ih =>
    unfold checkDests at h
    split at h
    · exact ih _ h
    · exact ⟨i, (Option.some_inj.mp h).symm⟩

theorem addSources_shape (l : List valueSource) (i : Nat) (m : Parity)
    (e : MuxError) (h : addSources l i m = .error e) :
    ∃ j a, e = .arithmeticOverflow true j a := by
  induction l generalizing i m with
  | nil => simp [addSources] at h
  | cons src rest ih =>
    unfold addSources at h
    split at h
    · refine ⟨i, src.value.assetID, ?_⟩
      injection h with h
      exact h.symm
    · exact ih _ _ h

theorem subDests_shape (l : List ValueDestination) (i : Nat) (m : Parity)
    (e : MuxError) (h : subDests l i m = .error e) :
    (∃ j a, e = .noMatchingSource j a) ∨
      (∃ j a, e = .arithmeticOverflow false j a) := by
  induction l generalizing i m with
  | nil => simp [subDests] at h
  | cons d rest ih =>
    unfold subDests at h
    split at h
    · refine .inl ⟨i, d.value.assetID, ?_⟩
      injection h with h
      exact h.symm
    · split at h
      · refine .inr ⟨i, d.value.assetID, ?_⟩
        injection h with h
        exact h.symm
      · exact ih _ _ h

theorem addSources_getD (l : List valueSource) (i : Nat) (m m' : Parity)
    (h : addSources l i m = .ok m') (a : AssetID) :
    (m'.lookup a).getD 0 = (m.lookup a).getD 0 + srcSumZ l a := by
  induction l generalizing i m with
  | nil =>
    injection h with h
    subst h
    simp [srcSumZ]
  | cons src rest ih =>
    unfold addSources at h
    split at h
    · exact absurd h (by simp)
    next sum heq =>
      have hsum := AddInt64_eq _ _ _ heq
      have hrec := ih (i + 1) (m.insert src.value.assetID sum) h
      rw [hrec, lookup_insert]
      by_cases hA : src.value.assetID = a
      · rw [if_pos hA, srcSumZ, if_pos hA]
        subst hA
        simp only [Option.getD_some]
        omega
      · rw [if_neg hA, srcSumZ, if_neg hA]
        omega

theorem subDests_getD (l : List ValueDestination) (i : Nat) (m m' : Parity)
    (h : subDests l i m = .ok m') (a : AssetID) :
    (m'.lookup a).getD 0 = (m.lookup a).getD 0 - destSumZ l a := by
  induction l generalizing i m with
  | nil =>
    injection h with h
    subst h
    simp [destSumZ]
  | cons d rest ih =>
    unfold subDests at h
    split at h
    · exact absurd h (by simp)
    next sum hlook =>
      split at h
      · exact absurd h (by simp)
      next diff heq =>
        have hdiff := SubInt64_eq _ _ _ heq
        have hrec := ih (i + 1) (m.insert d.value.assetID diff) h
        rw [hrec, lookup_insert]
        by_cases hA : d.value.assetID = a
        · rw [if_pos hA, destSumZ, if_pos hA]
          subst hA
          rw [hlook]
          simp only [Option.getD_some]
          omega
        · rw [if_neg hA, destSumZ, if_neg hA]
          omega

theorem addSources_isSome (l : List valueSource) (i : Nat) (m m' : Parity)
    (h : addSources l i m = .ok m') (a : AssetID)
    (ha : (m.lookup a).isSome ∨ a ∈ l.map (fun s => s.value.assetID)) :
    (m'.lookup a).isSome := by
  induction l generalizing i m with
  | nil =>
    injection h with h
    subst h
    simpa using ha
  | cons src rest ih =>
    unfold addSources at h
    split at h
    · exact absurd h (by simp)
    next sum heq =>
      refine ih (i + 1) _ h ?_
      rcases ha with hs | hmem
      · exact .inl (lookup_insert_isSome _ _ _ _ hs)
      · simp only [List.map_cons, List.mem_cons] at hmem
        rcases hmem with hmem | hmem
        · refine .inl ?_
          rw [lookup_insert, if_pos hmem.symm]
          simp
        · exact .inr (by simpa using hmem)

theorem subDests_noMatching_ne (l : List ValueDestination) (i : Nat)
    (m : Parity) (a : AssetID) (ha : (m.lookup a).isSome) (j : Nat) :
    subDests l i m ≠ .error (.noMatchingSource j a) := by
  induction l generalizing i m with
  | nil => simp [subDests]
  | cons d rest ih =>
    unfold subDests
    split
    next hnone =>
      intro hcontra
      injection hcontra with h
      injection h with h1 h2
      subst h2
      rw [hnone] at ha
      simp at ha
    next sum hlook =>
      split
      · simp
      next diff heq =>
        exact ih (i + 1) _ (lookup_insert_isSome _ _ _ _ ha)

theorem addSources_append (l1 l2 : List valueSource) (i : Nat) (m : Parity) :
    addSources (l1 ++ l2) i m =
      match addSources l1 i m with
      | .error e => .error e
      | .ok m' => addSources l2 (i + l1.length) m' := by
  induction l1 generalizing i m with
  | nil => simp [addSources]
  | cons src rest ih =>
    simp only [List.cons_append]
    unfold addSources
    split
    · rfl
    next sum heq =>
      rw [ih]
      have harith : i + (rest.length + 1) = (i + 1) + rest.length := by omega
      simp only [List.length_cons, harith, ← addSources.eq_def]

theorem subDests_append (l1 l2 : List ValueDestination) (i : Nat) (m : Parity) :
    subDests (l1 ++ l2) i m =
      match subDests l1 i m with
      | .error e => .error e
      | .ok m' => subDests l2 (i + l1.length) m' := by
  induction l1 generalizing i m with
  | nil => simp [subDests]
  | cons d rest ih =>
    simp only [List.cons_append]
    unfold subDests
    split
    · rfl
    next sum hlook =>
      split
      · rfl
      next diff heq =>
        rw [ih]
        have harith : i + (rest.length + 1) = (i + 1) + rest.length := by omega
        simp only [List.length_cons, harith, ← subDests.eq_def]

theorem CheckValid_subDests_error (vmV : Mux → ValidationState → Bool)
    (f : valueSource → ValidationState → Bool)
    (g : ValueDestination → ValidationState → Bool) (mux : Mux)
    (st : ValidationState) (m1 : Parity) (e : MuxError)
    (h1 : vmV mux st = true)
    (h2 : checkSources f st mux.sources 0 = none)
    (h3 : checkDests g st mux.destinations 0 = none)
    (h4 : addSources mux.sources 0 [] = .ok m1)
    (h5 : subDests mux.destinations 0 m1 = .error e) :
    Mux.CheckValid vmV f g mux st = some e := by
  unfold Mux.CheckValid
  rw [h1, h2, h3, h4]
  simp [h5]

theorem CheckValid_parity_ok (vmV : Mux → ValidationState → Bool)
    (f : valueSource → ValidationState → Bool)
    (g : ValueDestination → ValidationState → Bool) (mux : Mux)
    (st : ValidationState) (m1 m2 : Parity)
    (h1 : vmV mux st = true)
    (h2 : checkSources f st mux.sources 0 = none)
    (h3 : checkDests g st mux.destinations 0 = none)
    (h4 : addSources mux.sources 0 [] = .ok m1)
    (h5 : subDests mux.destinations 0 m1 = .ok m2) :
    Mux.CheckValid vmV f g mux st =
      match balanceCheck m2 with
      | some av => some (.unbalanced av.1 av.2)
      | none =>
          if st.currentTx.version = 1 ∧ mux.extHash ≠ Hash.zero then
            some .nonemptyExtHash
          else none := by
  unfold Mux.CheckValid
  rw [h1, h2, h3, h4]
  simp [h5]

theorem CheckValid_addSources_error (vmV : Mux → ValidationState → Bool)
    (f : valueSource → ValidationState → Bool)
    (g : ValueDestination → ValidationState → Bool) (mux : Mux)
    (st : ValidationState) (e : MuxError)
    (h1 : vmV mux st = true)
    (h2 : checkSources f st mux.sources 0 = none)
    (h3 : checkDests g st mux.destinations 0 = none)
    (h4 : addSources mux.sources 0 [] = .error e) :
    Mux.CheckValid vmV f g mux st = some e := by
  unfold Mux.CheckValid
  rw [h1, h2, h3, h4]
  simp

theorem CheckValid_extHash_imp (vmV : Mux → ValidationState → Bool)
    (f : valueSource → ValidationState → Bool)
    (g : ValueDestination → ValidationState → Bool) (mux : Mux)
    (st : ValidationState)
    (h : Mux.CheckValid vmV f g mux st = some .nonemptyExtHash) :
    st.currentTx.version = 1 ∧ mux.extHash ≠ Hash.zero := by
  unfold Mux.CheckValid at h
  split at h
  · simp at h
  split at h
  next e heq =>
    obtain ⟨j, hj⟩ := checkSources_shape _ _ _ _ _ heq
    rw [hj] at h
    simp at h
  split at h
  next e heq =>
    obtain ⟨j, hj⟩ := checkDests_shape _ _ _ _ _ heq
    rw [hj] at h
    simp at h
  split at h
  next e heq =>
    obtain ⟨j, a, hj⟩ := addSources_shape _ _ _ _ heq
    rw [hj] at h
    simp at h
  split at h
  next e heq =>
    rcases subDests_shape _ _ _ _ heq with ⟨j, a, hj⟩ | ⟨j, a, hj⟩ <;>
      · rw [hj] at h
        simp at h
  split at h
  · simp at h
  split at h
  next hcond => exact hcond
  · simp at h

theorem NonceCheckValid_extHash_imp (nv : Nonce → ValidationState → Bool)
    (n : Nonce) (st : ValidationState)
    (h : Nonce.CheckValid nv n st = some .nonemptyExtHash) :
    st.currentTx.version = 1 ∧ n.extHash ≠ Hash.zero := by
  unfold Nonce.CheckValid at h
  split at h
  · simp at h
  split at h
  · simp at h
  split at h
  next hcond => exact hcond
  · simp at h

theorem checkSources_congr (f f' : valueSource → ValidationState → Bool)
    (s : ValidationState) (l : List valueSource) (i : Nat)
    (h : ∀ j src, l[j]? = some src →
      f src (srcStateAt s (i + j)) = f' src (srcStateAt s (i + j))) :
    checkSources f s l i = checkSources f' s l i := by
  induction l generalizing i with
  | nil => rfl
  | cons src rest ih =>
    unfold checkSources
    have h0 := h 0 src (by simp)
    rw [Nat.add_zero] at h0
    rw [h0]
    split
    · refine ih (i + 1) (fun j src' hj => ?_)
      have := h (j + 1) src' (by simpa using hj)
      have harith : i + (j + 1) = (i + 1) + j := by omega
      rwa [harith] at this
    · rfl

theorem checkDests_congr (g g' : ValueDestination → ValidationState → Bool)
    (s : ValidationState) (l : List ValueDestination) (i : Nat)
    (h : ∀ j d, l[j]? = some d →
      g d (destStateAt s (i + j)) = g' d (destStateAt s (i + j))) :
    checkDests g s l i = checkDests g' s l i := by
  induction l generalizing i with
  | nil => rfl
  | cons d rest ih =>
    unfold checkDests
    have h0 := h 0 d (by simp)
    rw [Nat.add_zero] at h0
    rw [h0]
    split
    · refine ih (i + 1) (fun j d' hj => ?_)
      have := h (j + 1) d' (by simpa using hj)
      have harith : i + (j + 1) = (i + 1) + j := by omega
      rwa [harith] at this
    · rfl

/-! ## Claim theorems -/

/-- C9: the accept/reject verdict of the Mux balance check is independent
of the order in which the assets of the final parity map are iterated: for
every parity map and every reordering (permutation) of its entries, the
zero-residual check accepts under one ordering iff it accepts under the
other. -/
theorem balance_order_independent (m m' : Parity) (h : m.Perm m') :
    balanceCheck m = none ↔ balanceCheck m' = none := by
  rw [balanceCheck_none_iff, balanceCheck_none_iff]
  exact ⟨fun hall p hp => hall p (h.mem_iff.mpr hp),
    fun hall p hp => hall p (h.mem_iff.mp hp)⟩

/-- Witness for C9 at a concrete two-entry parity map and its swap. -/
theorem balance_order_independent_witness :
    balanceCheck [(assetA, (0 : Int)), (⟨2⟩, (5 : Int))] = none ↔
      balanceCheck [(⟨2⟩, (5 : Int)), (assetA, (0 : Int))] = none :=
  balance_order_independent _ _ (List.Perm.swap _ _ _)

/-- C5: for a Nonce whose guarding program verifies, `Nonce.CheckValid`
fails with `ZeroTimeRange` exactly when the referenced time range's
minimum timestamp is zero or its maximum timestamp is zero; with both
bounds non-zero this specific check passes. -/
theorem nonce_zero_time_range (nv : Nonce → ValidationState → Bool)
    (n : Nonce) (st : ValidationState) (h : nv n st = true) :
    Nonce.CheckValid nv n st = some .zeroTimeRange ↔
      (n.timeRange.minTimeMS = 0 ∨ n.timeRange.maxTimeMS = 0) := by
  unfold Nonce.CheckValid
  rw [h]
  by_cases hz : n.timeRange.minTimeMS = 0 ∨ n.timeRange.maxTimeMS = 0
  · simp [hz]
  · rw [if_neg (by simp), if_neg hz]
    constructor
    · intro hc
      split at hc <;> simp at hc
    · intro hc
      exact absurd hc hz

/-- Witness for C5: a Nonce whose TimeRange has a zero minimum bound
fails with `ZeroTimeRange`. -/
theorem nonce_zero_time_range_witness :
    Nonce.CheckValid okNonceVM zeroMinNonce v1State = some .zeroTimeRange ∧
      zeroMinNonce.timeRange.minTimeMS = 0 :=
  ⟨(nonce_zero_time_range okNonceVM zeroMinNonce v1State rfl).mpr
      (Or.inl rfl), rfl⟩

/-- C4: for Mux and Nonce entries validated in a version-1 transaction, a
non-zero extension hash makes `CheckValid` fail with
`NonemptyExtensionHash` (once every earlier check passes); an all-zero
extension hash never produces that error; and for transaction versions
other than 1 the extension hash is not checked, so the error cannot
arise. -/
theorem ext_hash_version1 :
    (∀ vmV f g mux (st : ValidationState) m1 m2, vmV mux st = true →
      checkSources f st mux.sources 0 = none →
      checkDests g st mux.destinations 0 = none →
      addSources mux.sources 0 [] = .ok m1 →
      subDests mux.destinations 0 m1 = .ok m2 →
      balanceCheck m2 = none →
      st.currentTx.version = 1 → mux.extHash ≠ Hash.zero →
      Mux.CheckValid vmV f g mux st = some .nonemptyExtHash) ∧
    (∀ vmV f g mux (st : ValidationState), mux.extHash = Hash.zero →
      Mux.CheckValid vmV f g mux st ≠ some .nonemptyExtHash) ∧
    (∀ vmV f g mux (st : ValidationState), st.currentTx.version ≠ 1 →
      Mux.CheckValid vmV f g mux st ≠ some .nonemptyExtHash) ∧
    (∀ nv n (st : ValidationState), nv n st = true →
      n.timeRange.minTimeMS ≠ 0 → n.timeRange.maxTimeMS ≠ 0 →
      st.currentTx.version = 1 → n.extHash ≠ Hash.zero →
      Nonce.CheckValid nv n st = some .nonemptyExtHash) ∧
    (∀ nv n (st : ValidationState), n.extHash = Hash.zero →
      Nonce.CheckValid nv n st ≠ some .nonemptyExtHash) ∧
    (∀ nv n (st : ValidationState), st.currentTx.version ≠ 1 →
      Nonce.CheckValid nv n st ≠ some .nonemptyExtHash) := by
  refine ⟨?_, ?_, ?_, ?_, ?_, ?_⟩
  · intro vmV f g mux st m1 m2 h1 h2 h3 h4 h5 hbal hver hext
    rw [CheckValid_parity_ok vmV f g mux st m1 m2 h1 h2 h3 h4 h5, hbal]
    simp [hver, hext]
  · intro vmV f g mux st hz hc
    exact (CheckValid_extHash_imp vmV f g mux st hc).2 hz
  · intro vmV f g mux st hv hc
    exact hv (CheckValid_extHash_imp vmV f g mux st hc).1
  · intro nv n st h hmin hmax hver hext
    unfold Nonce.CheckValid
    rw [h, if_neg (by simp), if_neg (by simp [hmin, hmax]),
      if_pos ⟨hver, hext⟩]
  · intro nv n st hz hc
    exact (NonceCheckValid_extHash_imp nv n st hc).2 hz
  · intro nv n st hv hc
    exact hv (NonceCheckValid_extHash_imp nv n st hc).1

/-- Witness for C4: a version-1 Mux and Nonce with a non-zero extension
hash fail with `NonemptyExtensionHash`; the same Mux under transaction
version 2 cannot produce that error. -/
theorem ext_hash_version1_witness :
    Mux.CheckValid okMuxVM okSrc okDest extMux v1State =
        some .nonemptyExtHash ∧
      Nonce.CheckValid okNonceVM extNonce v1State = some .nonemptyExtHash ∧
      Mux.CheckValid okMuxVM okSrc okDest extMux v2State ≠
        some .nonemptyExtHash :=
  ⟨ext_hash_version1.1 okMuxVM okSrc okDest extMux v1State [] [] rfl rfl rfl
      rfl rfl rfl rfl (by decide),
    ext_hash_version1.2.2.2.1 okNonceVM extNonce v1State rfl (by decide)
      (by decide) rfl (by decide),
    ext_hash_version1.2.2.1 okMuxVM okSrc okDest extMux v2State (by decide)⟩

/-- C8: descending into the `i`-th source (resp. destination) passes a
copy of the validation state with `SourcePosition` (resp. `DestPosition`)
set to `i` and every other field equal to the caller's state, and the
outcome of `Mux.CheckValid` depends on the recursive checks only through
their values at exactly those branch-local states, so no sibling branch
observes another branch's position (the caller's state is a value and is
never mutated in this embedding). -/
theorem mux_state_copies :
    (∀ (s : ValidationState) (i : Nat),
        (srcStateAt s i).sourcePosition = i ∧
        (srcStateAt s i).destPosition = s.destPosition ∧
        (srcStateAt s i).blockVersion = s.blockVersion ∧
        (srcStateAt s i).initialBlockID = s.initialBlockID ∧
        (srcStateAt s i).currentTx = s.currentTx ∧
        (srcStateAt s i).currentEntryID = s.currentEntryID ∧
        (srcStateAt s i).timestampMS = s.timestampMS ∧
        (srcStateAt s i).prevBlockHeader = s.prevBlockHeader ∧
        (srcStateAt s i).prevBlockHeaderID = s.prevBlockHeaderID ∧
        (srcStateAt s i).blockTxs = s.blockTxs) ∧
    (∀ (s : ValidationState) (i : Nat),
        (destStateAt s i).destPosition = i ∧
        (destStateAt s i).sourcePosition = s.sourcePosition ∧
        (destStateAt s i).blockVersion = s.blockVersion ∧
        (destStateAt s i).initialBlockID = s.initialBlockID ∧
        (destStateAt s i).currentTx = s.currentTx ∧
        (destStateAt s i).currentEntryID = s.currentEntryID ∧
        (destStateAt s i).timestampMS = s.timestampMS ∧
        (destStateAt s i).prevBlockHeader = s.prevBlockHeader ∧
        (destStateAt s i).prevBlockHeaderID = s.prevBlockHeaderID ∧
        (destStateAt s i).blockTxs = s.blockTxs) ∧
    (∀ vmV f f' g g' mux (st : ValidationState),
        (∀ j src, mux.sources[j]? = some src →
          f src (srcStateAt st j) = f' src (srcStateAt st j)) →
        (∀ j d, mux.destinations[j]? = some d →
          g d (destStateAt st j) = g' d (destStateAt st j)) →
        Mux.CheckValid vmV f g mux st = Mux.CheckValid vmV f' g' mux st) := by
  refine ⟨fun s i => ⟨rfl, rfl, rfl, rfl, rfl, rfl, rfl, rfl, rfl, rfl⟩,
    fun s i => ⟨rfl, rfl, rfl, rfl, rfl, rfl, rfl, rfl, rfl, rfl⟩, ?_⟩
  intro vmV f f' g g' mux st hf hg
  unfold Mux.CheckValid
  rw [checkSources_congr f f' st mux.sources 0 (by simpa using hf),
    checkDests_congr g g' st mux.destinations 0 (by simpa using hg)]

/-- Witness for C8 at a concrete state and Mux, with identical check
functions on both sides. -/
theorem mux_state_copies_witness :
    (srcStateAt v1State 3).sourcePosition = 3 ∧
      Mux.CheckValid okMuxVM okSrc okDest scenario1Mux v1State =
        Mux.CheckValid okMuxVM okSrc okDest scenario1Mux v1State :=
  ⟨(mux_state_copies.1 v1State 3).1,
    mux_state_copies.2.2 okMuxVM okSrc okSrc okDest okDest scenario1Mux
      v1State (fun _ _ _ => rfl) (fun _ _ _ => rfl)⟩

/-- C1: when the guarding program, all sources and all destinations
validate and the parity computation completes, `Mux.CheckValid` proceeds
past the balance check iff every asset's residual parity is exactly zero;
a nonzero residual yields `Unbalanced` naming the asset and the residual;
each asset's final parity equals the sum of its source amounts minus the
sum of its destination amounts (after int64 conversion); and the spec's
scenarios hold: sources `[(assetA, 100)]` with destinations
`[(assetA, 60), (assetA, 40)]` pass the balance check, while destinations
`[(assetA, 60), (assetA, 41)]` fail with `Unbalanced` and residual `-1`
for `assetA`. -/
theorem mux_balance_iff (vmV : Mux → ValidationState → Bool)
    (f : valueSource → ValidationState → Bool)
    (g : ValueDestination → ValidationState → Bool) (mux : Mux)
    (st : ValidationState) (m1 m2 : Parity)
    (h1 : vmV mux st = true)
    (h2 : checkSources f st mux.sources 0 = none)
    (h3 : checkDests g st mux.destinations 0 = none)
    (h4 : addSources mux.sources 0 [] = .ok m1)
    (h5 : subDests mux.destinations 0 m1 = .ok m2) :
    ((∀ p ∈ m2, p.2 = (0 : Int)) →
        Mux.CheckValid vmV f g mux st =
          if st.currentTx.version = 1 ∧ mux.extHash ≠ Hash.zero then
            some .nonemptyExtHash
          else none) ∧
    (∀ av, balanceCheck m2 = some av →
        Mux.CheckValid vmV f g mux st = some (.unbalanced av.1 av.2) ∧
          av ∈ m2 ∧ av.2 ≠ 0) ∧
    (∀ a v, m2.lookup a = some v →
        v = srcSumZ mux.sources a - destSumZ mux.destinations a) ∧
    Mux.CheckValid okMuxVM okSrc okDest scenario1Mux v1State = none ∧
    Mux.CheckValid okMuxVM okSrc okDest scenario2Mux v1State =
      some (.unbalanced assetA (-1)) := by
  refine ⟨?_, ?_, ?_, by decide, by decide⟩
  · intro hz
    rw [CheckValid_parity_ok vmV f g mux st m1 m2 h1 h2 h3 h4 h5,
      (balanceCheck_none_iff m2).mpr hz]
  · intro av hav
    refine ⟨?_, balanceCheck_mem m2 av hav⟩
    rw [CheckValid_parity_ok vmV f g mux st m1 m2 h1 h2 h3 h4 h5, hav]
  · intro a v hv
    have h6 := addSources_getD mux.sources 0 [] m1 h4 a
    have h7 := subDests_getD mux.destinations 0 m1 m2 h5 a
    rw [hv] at h7
    simp only [Option.getD_some] at h7
    simp only [Parity.lookup, Option.getD_none] at h6
    rw [h7, h6]
    ring

/-- Witness for C1 at the balanced spec scenario. -/
theorem mux_balance_iff_witness :
    Mux.CheckValid okMuxVM okSrc okDest scenario1Mux v1State =
      if v1State.currentTx.version = 1 ∧ scenario1Mux.extHash ≠ Hash.zero
      then some .nonemptyExtHash else none :=
  (mux_balance_iff okMuxVM okSrc okDest scenario1Mux v1State
    [(assetA, 100)] [(assetA, 0)] rfl rfl rfl rfl rfl).1 (by decide)

/-- C10: once an asset has at least one source in a Mux, no destination of
that asset can fail with `NoMatchingSource`: the parity entry persists
(possibly with value zero), so `Mux.CheckValid` never returns a
`NoMatchingSource` error naming that asset, at any destination index. -/
theorem mux_no_matching_source (vmV : Mux → ValidationState → Bool)
    (f : valueSource → ValidationState → Bool)
    (g : ValueDestination → ValidationState → Bool) (mux : Mux)
    (st : ValidationState) (a : AssetID)
    (ha : ∃ s ∈ mux.sources, s.value.assetID = a) (i : Nat) :
    Mux.CheckValid vmV f g mux st ≠ some (.noMatchingSource i a) := by
  intro hc
  unfold Mux.CheckValid at hc
  split at hc
  · simp at hc
  split at hc
  next e heq =>
    obtain ⟨j, hj⟩ := checkSources_shape _ _ _ _ _ heq
    rw [hj] at hc
    simp at hc
  split at hc
  next e heq =>
    obtain ⟨j, hj⟩ := checkDests_shape _ _ _ _ _ heq
    rw [hj] at hc
    simp at hc
  split at hc
  next e heq =>
    obtain ⟨j, b, hj⟩ := addSources_shape _ _ _ _ heq
    rw [hj] at hc
    simp at hc
  next m1 haddeq =>
    split at hc
    next e hsuberr =>
      have he : e = .noMatchingSource i a := Option.some_inj.mp hc
      subst he
      obtain ⟨s, hs, hsa⟩ := ha
      have hsome : (m1.lookup a).isSome :=
        addSources_isSome mux.sources 0 [] m1 haddeq a
          (.inr (List.mem_map.mpr ⟨s, hs, hsa⟩))
      exact subDests_noMatching_ne mux.destinations 0 m1 a hsome i hsuberr
    split at hc
    · simp at hc
    split at hc <;> simp at hc

/-- Witness for C10 at the unbalanced spec scenario and destination
index 1. -/
theorem mux_no_matching_source_witness :
    Mux.CheckValid okMuxVM okSrc okDest scenario2Mux v1State ≠
      some (.noMatchingSource 1 assetA) :=
  mux_no_matching_source okMuxVM okSrc okDest scenario2Mux v1State assetA
    ⟨⟨Hash.zero, ⟨assetA, 100⟩, 0⟩, by decide, rfl⟩ 1

theorem subDests_cons_none (d : ValueDestination) (rest : List ValueDestination)
    (i : Nat) (m : Parity) (h : m.lookup d.value.assetID = none) :
    subDests (d :: rest) i m = .error (.noMatchingSource i d.value.assetID) := by
  unfold subDests
  rw [h]

theorem subDests_cons_overflow (d : ValueDestination)
    (rest : List ValueDestination) (i : Nat) (m : Parity) (sum : Int)
    (hl : m.lookup d.value.assetID = some sum)
    (hf : SubInt64 sum (int64OfUint64 d.value.amount) = none) :
    subDests (d :: rest) i m =
      .error (.arithmeticOverflow false i d.value.assetID) := by
  unfold subDests
  rw [hl]
  simp [hf]

theorem addSources_cons_overflow (src : valueSource) (rest : List valueSource)
    (i : Nat) (m : Parity)
    (hf : AddInt64 ((m.lookup src.value.assetID).getD 0)
      (int64OfUint64 src.value.amount) = none) :
    addSources (src :: rest) i m =
      .error (.arithmeticOverflow true i src.value.assetID) := by
  unfold addSources
  rw [hf]

/-- C6: during destination processing, the first destination whose asset
has no entry in the parity map makes `Mux.CheckValid` fail with
`NoMatchingSource` naming that destination's index and asset, and each
destination subtraction is overflow/underflow-checked: a failing checked
subtraction yields the arithmetic overflow/underflow error naming the
index and asset. -/
theorem mux_dest_errors (vmV : Mux → ValidationState → Bool)
    (f : valueSource → ValidationState → Bool)
    (g : ValueDestination → ValidationState → Bool) (mux : Mux)
    (st : ValidationState) (m1 mj : Parity) (j : Nat) (d : ValueDestination)
    (h1 : vmV mux st = true)
    (h2 : checkSources f st mux.sources 0 = none)
    (h3 : checkDests g st mux.destinations 0 = none)
    (h4 : addSources mux.sources 0 [] = .ok m1)
    (hj : mux.destinations[j]? = some d)
    (h6 : subDests (mux.destinations.take j) 0 m1 = .ok mj) :
    (mj.lookup d.value.assetID = none →
        Mux.CheckValid vmV f g mux st =
          some (.noMatchingSource j d.value.assetID)) ∧
    (∀ sum, mj.lookup d.value.assetID = some sum →
        SubInt64 sum (int64OfUint64 d.value.amount) = none →
        Mux.CheckValid vmV f g mux st =
          some (.arithmeticOverflow false j d.value.assetID)) := by
  have hjlt : j < mux.destinations.length := (List.getElem?_eq_some.mp hj).1
  have hget : mux.destinations[j] = d := (List.getElem?_eq_some.mp hj).2
  have hsplit : mux.destinations =
      mux.destinations.take j ++ (d :: mux.destinations.drop (j + 1)) := by
    conv_lhs => rw [← List.take_append_drop j mux.destinations]
    rw [List.drop_eq_getElem_cons hjlt, hget]
  have hlen : (mux.destinations.take j).length = j := by
    simp [List.length_take, Nat.min_eq_left (Nat.le_of_lt hjlt)]
  have hred : subDests mux.destinations 0 m1 =
      subDests (d :: mux.destinations.drop (j + 1)) j mj := by
    conv_lhs => rw [hsplit]
    rw [subDests_append, h6]
    simp [hlen]
  constructor
  · intro hnone
    refine CheckValid_subDests_error vmV f g mux st m1 _ h1 h2 h3 h4 ?_
    rw [hred]
    exact subDests_cons_none d _ j mj hnone
  · intro sum hsum hfail
    refine CheckValid_subDests_error vmV f g mux st m1 _ h1 h2 h3 h4 ?_
    rw [hred]
    exact subDests_cons_overflow d _ j mj sum hsum hfail

/-- Witness for C6: a Mux whose only destination's asset has no source
fails with `NoMatchingSource` naming index 0 and that asset. -/
theorem mux_dest_errors_witness :
    Mux.CheckValid okMuxVM okSrc okDest noSrcMux v1State =
      some (.noMatchingSource 0 ⟨2⟩) :=
  (mux_dest_errors okMuxVM okSrc okDest noSrcMux v1State [(assetA, 5)]
    [(assetA, 5)] 0 ⟨⟨2⟩, ⟨⟨2⟩, 1⟩, 0⟩ rfl rfl rfl rfl rfl rfl).1 rfl

/-- Counterexample to C2 as stated: a Mux whose single source carries
`2^63` units — a u64 amount exceeding the signed-64 maximum — does not
fail with `ArithmeticOverflow`; the amount wraps to `-(2^63)` in the
`int64` conversion, the matching destination wraps likewise, and
`CheckValid` succeeds outright. -/
theorem mux_overflow_counterexample :
    Mux.CheckValid okMuxVM okSrc okDest wrapMux v1State = none ∧
      wrapMux.sources.map (fun s => s.value.amount) = [2 ^ 63] ∧
      int64MaxZ < (2 ^ 63 : Int) ∧
      int64OfUint64 (2 ^ 63) = -(2 ^ 63) :=
  ⟨by decide, rfl, by decide, by decide⟩

/-- C2 amended: each source amount is first converted from u64 to int64
with two's-complement wrap-around (amounts of at least `2^63` become
negative), and only the addition of the converted amount into the running
per-asset parity is overflow-checked: when the checked addition at source
index `j` fails, `Mux.CheckValid` fails with `ArithmeticOverflow` naming
the source index and asset; a single source whose u64 amount exceeds the
signed-64 maximum does not overflow but enters the parity as a negative
value. -/
theorem mux_overflow_amended (vmV : Mux → ValidationState → Bool)
    (f : valueSource → ValidationState → Bool)
    (g : ValueDestination → ValidationState → Bool) (mux : Mux)
    (st : ValidationState) (mj : Parity) (j : Nat) (s : valueSource)
    (h1 : vmV mux st = true)
    (h2 : checkSources f st mux.sources 0 = none)
    (h3 : checkDests g st mux.destinations 0 = none)
    (hj : mux.sources[j]? = some s)
    (h6 : addSources (mux.sources.take j) 0 [] = .ok mj)
    (hfail : AddInt64 ((mj.lookup s.value.assetID).getD 0)
      (int64OfUint64 s.value.amount) = none) :
    Mux.CheckValid vmV f g mux st =
        some (.arithmeticOverflow true j s.value.assetID) ∧
      (∀ u, 2 ^ 63 ≤ u → u < 2 ^ 64 →
        int64OfUint64 u = (u : Int) - 2 ^ 64 ∧ int64OfUint64 u < 0) := by
  have hjlt : j < mux.sources.length := (List.getElem?_eq_some.mp hj).1
  have hget : mux.sources[j] = s := (List.getElem?_eq_some.mp hj).2
  have hsplit : mux.sources =
      mux.sources.take j ++ (s :: mux.sources.drop (j + 1)) := by
    conv_lhs => rw [← List.take_append_drop j mux.sources]
    rw [List.drop_eq_getElem_cons hjlt, hget]
  have hlen : (mux.sources.take j).length = j := by
    simp [List.length_take, Nat.min_eq_left (Nat.le_of_lt hjlt)]
  have hred : addSources mux.sources 0 [] =
      addSources (s :: mux.sources.drop (j + 1)) j mj := by
    conv_lhs => rw [hsplit]
    rw [addSources_append, h6]
    simp [hlen]
  constructor
  · refine CheckValid_addSources_error vmV f g mux st _ h1 h2 h3 ?_
    rw [hred]
    exact addSources_cons_overflow s _ j mj hfail
  · intro u hlo hhi
    unfold int64OfUint64
    rw [if_neg (by omega)]
    exact ⟨rfl, by omega⟩

/-- Witness for C2 amended: two sources of `2^63 - 1` units of one asset
overflow the running int64 parity at source index 1. -/
theorem mux_overflow_amended_witness :
    Mux.CheckValid okMuxVM okSrc okDest overflowMux v1State =
      some (.arithmeticOverflow true 1 assetA) :=
  (mux_overflow_amended okMuxVM okSrc okDest overflowMux v1State
    [(assetA, 2 ^ 63 - 1)] 1 ⟨⟨4⟩, ⟨assetA, 2 ^ 63 - 1⟩, 1⟩ rfl rfl rfl
    (by decide) (by rfl) (by decide)).1

theorem opCheckOutput_reduce (dec : List Nat → Option Int) (txc : TxContext)
    (ii : Nat) (rl : Int) (code v aid amt ref idx : List Nat)
    (rest : List (List Nat)) (vv am ix : Int) (d : MuxDestInfo)
    (h16 : ¬ rl - 16 < 0)
    (hv : dec v = some vv) (hvpos : ¬ vv < 0)
    (ham : dec amt = some am) (hampos : ¬ am < 0)
    (hix : dec idx = some ix) (hixpos : ¬ ix < 0)
    (hixmax : ¬ maxUint32Z < ix)
    (hmux : txc.destIsMux ii = true)
    (hdest : txc.muxDest ix.toNat = .ok d) :
    opCheckOutput dec
        ⟨some txc, ii, rl, code :: v :: aid :: amt :: ref :: idx :: rest⟩ =
      if ¬ someChecks aid am ref d then
        .ok ⟨some txc, ii, rl - 16, boolBytes false :: rest⟩
      else if d.isRetirement then
        if vv = 1 ∧ code.head? = some opFailByte then
          .ok ⟨some txc, ii, rl - 16, boolBytes true :: rest⟩
        else .ok ⟨some txc, ii, rl - 16, boolBytes false :: rest⟩
      else if d.vmVersion ≠ vv.toNat then
        .ok ⟨some txc, ii, rl - 16, boolBytes false :: rest⟩
      else if d.code ≠ code then
        .ok ⟨some txc, ii, rl - 16, boolBytes false :: rest⟩
      else .ok ⟨some txc, ii, rl - 16, boolBytes true :: rest⟩ := by
  simp only [opCheckOutput, popInt64, pop, applyCost, pushBool, h16, hv,
    hvpos, ham, hampos, hix, hixpos, hixmax, hmux, hdest, if_false, if_true,
    ite_false, ite_true, not_false_eq_true, not_true_eq_false]

/-- C3: once the CheckOutput operands are popped and the destination at
the popped index resolves, with matching asset ID, amount and (when a
non-empty refDataHash was supplied) reference-data digest: for a
retirement destination the opcode pushes true exactly when the popped
vmVersion is 1 and the popped code's first byte is the VM's FAIL opcode;
for a non-retirement destination it pushes true exactly when the popped
vmVersion equals the destination's VM version and the popped code is
byte-for-byte equal to the destination's program; and on any mismatch of
asset ID, amount or required digest it pushes false. -/
theorem checkOutput_match (dec : List Nat → Option Int) (txc : TxContext)
    (ii : Nat) (rl : Int) (code v aid amt ref idx : List Nat)
    (rest : List (List Nat)) (vv am ix : Int) (d : MuxDestInfo)
    (h16 : ¬ rl - 16 < 0)
    (hv : dec v = some vv) (hvpos : ¬ vv < 0)
    (ham : dec amt = some am) (hampos : ¬ am < 0)
    (hix : dec idx = some ix) (hixpos : ¬ ix < 0)
    (hixmax : ¬ maxUint32Z < ix)
    (hmux : txc.destIsMux ii = true)
    (hdest : txc.muxDest ix.toNat = .ok d) :
    (someChecks aid am ref d = false →
        opCheckOutput dec
            ⟨some txc, ii, rl, code :: v :: aid :: amt :: ref :: idx :: rest⟩ =
          .ok ⟨some txc, ii, rl - 16, boolBytes false :: rest⟩) ∧
    (someChecks aid am ref d = true → d.isRetirement = true →
        opCheckOutput dec
            ⟨some txc, ii, rl, code :: v :: aid :: amt :: ref :: idx :: rest⟩ =
          .ok ⟨some txc, ii, rl - 16,
            boolBytes (decide (vv = 1 ∧ code.head? = some opFailByte)) ::
              rest⟩) ∧
    (someChecks aid am ref d = true → d.isRetirement = false →
        opCheckOutput dec
            ⟨some txc, ii, rl, code :: v :: aid :: amt :: ref :: idx :: rest⟩ =
          .ok ⟨some txc, ii, rl - 16,
            boolBytes (decide (d.vmVersion = vv.toNat ∧ d.code = code)) ::
              rest⟩) := by
  have hred := opCheckOutput_reduce dec txc ii rl code v aid amt ref idx rest
    vv am ix d h16 hv hvpos ham hampos hix hixpos hixmax hmux hdest
  refine ⟨?_, ?_, ?_⟩
  · intro hsc
    rw [hred, if_pos (by simp [hsc])]
  · intro hsc hret
    rw [hred, if_neg (by simp [hsc]), if_pos hret]
    by_cases hp : vv = 1 ∧ code.head? = some opFailByte
    · rw [if_pos hp]
      simp [hp]
    · rw [if_neg hp]
      simp [hp]
  · intro hsc hret
    rw [hred, if_neg (by simp [hsc]), if_neg (by simp [hret])]
    by_cases hver : d.vmVersion = vv.toNat
    · by_cases hcode : d.code = code
      · rw [if_neg (by simp [hver]), if_neg (by simp [hcode])]
        simp [hver, hcode]
      · rw [if_neg (by simp [hver]), if_pos hcode]
        simp [hver, hcode]
    · rw [if_pos hver]
      simp [hver]

/-- Witness for C3: a retirement destination, matching asset and amount,
vmVersion 1 and code beginning with the FAIL opcode push true. -/
theorem checkOutput_match_witness :
    opCheckOutput wDec wVM3 = .ok ⟨some wTxContext, 0, 84, [[1]]⟩ := by
  have h := (checkOutput_match wDec wTxContext 0 100 [89] [0, 1] [1, 2]
    [0, 5] [] [0, 0] [] 1 5 0 wDestInfo (by decide) rfl (by decide) rfl
    (by decide) rfl (by decide) (by decide) rfl rfl).2.1 (by decide) rfl
  exact h.trans (by rfl)

/-- C7: CheckOutput pops, in order, code, vmVersion, assetID, amount,
refDataHash and index; it fails with `BadValue` when the popped vmVersion,
amount or index is negative or the index exceeds the unsigned 32-bit
maximum, and with `ContextError` when there is no transaction context or
the current input's value does not go to a Mux — in every such case the
result is an error, so no boolean is pushed. -/
theorem checkOutput_pops_guards (dec : List Nat → Option Int)
    (txc : TxContext) (ii : Nat) (rl : Int)
    (code v aid amt ref idx : List Nat) (rest : List (List Nat))
    (h16 : ¬ rl - 16 < 0) :
    (∀ vm' : virtualMachine, vm'.tx = none →
        opCheckOutput dec vm' = .error .context) ∧
    (∀ vv : Int, dec v = some vv → vv < 0 →
        opCheckOutput dec
            ⟨some txc, ii, rl, code :: v :: aid :: amt :: ref :: idx :: rest⟩ =
          .error .badValue) ∧
    (∀ vv am : Int, dec v = some vv → ¬ vv < 0 → dec amt = some am →
        am < 0 →
        opCheckOutput dec
            ⟨some txc, ii, rl, code :: v :: aid :: amt :: ref :: idx :: rest⟩ =
          .error .badValue) ∧
    (∀ vv am ix : Int, dec v = some vv → ¬ vv < 0 → dec amt = some am →
        ¬ am < 0 → dec idx = some ix → ix < 0 →
        opCheckOutput dec
            ⟨some txc, ii, rl, code :: v :: aid :: amt :: ref :: idx :: rest⟩ =
          .error .badValue) ∧
    (∀ vv am ix : Int, dec v = some vv → ¬ vv < 0 → dec amt = some am →
        ¬ am < 0 → dec idx = some ix → ¬ ix < 0 → maxUint32Z < ix →
        opCheckOutput dec
            ⟨some txc, ii, rl, code :: v :: aid :: amt :: ref :: idx :: rest⟩ =
          .error .badValue) ∧
    (∀ vv am ix : Int, dec v = some vv → ¬ vv < 0 → dec amt = some am →
        ¬ am < 0 → dec idx = some ix → ¬ ix < 0 → ¬ maxUint32Z < ix →
        txc.destIsMux ii = false →
        opCheckOutput dec
            ⟨some txc, ii, rl, code :: v :: aid :: amt :: ref :: idx :: rest⟩ =
          .error .context) := by
  refine ⟨?_, ?_, ?_, ?_, ?_, ?_⟩
  · intro vm' htx
    simp only [opCheckOutput, htx]
  · intro vv hv hvneg
    simp only [opCheckOutput, popInt64, pop, applyCost, h16, hv, hvneg,
      if_false, if_true, ite_false, ite_true, not_false_eq_true]
  · intro vv am hv hvpos ham hamneg
    simp only [opCheckOutput, popInt64, pop, applyCost, h16, hv, hvpos, ham,
      hamneg, if_false, if_true, ite_false, ite_true, not_false_eq_true]
  · intro vv am ix hv hvpos ham hampos hix hixneg
    simp only [opCheckOutput, popInt64, pop, applyCost, h16, hv, hvpos, ham,
      hampos, hix, hixneg, if_false, if_true, ite_false, ite_true,
      not_false_eq_true]
  · intro vv am ix hv hvpos ham hampos hix hixpos hixbig
    simp only [opCheckOutput, popInt64, pop, applyCost, h16, hv, hvpos, ham,
      hampos, hix, hixpos, hixbig, if_false, if_true, ite_false, ite_true,
      not_false_eq_true]
  · intro vv am ix hv hvpos ham hampos hix hixpos hixmax hnomux
    simp only [opCheckOutput, popInt64, pop, applyCost, h16, hv, hvpos, ham,
      hampos, hix, hixpos, hixmax, hnomux, if_false, if_true, ite_false,
      ite_true, not_false_eq_true, not_true_eq_false, Bool.false_eq_true]

/-- Witness for C7: a negative popped vmVersion fails with `BadValue`. -/
theorem checkOutput_pops_guards_witness :
    opCheckOutput wDec wVM7 = .error .badValue := by
  have h := (checkOutput_pops_guards wDec wTxContext 0 100 [] [1, 1] []
    [0, 0] [] [0, 0] [] (by decide)).2.1 (-1) rfl (by decide)
  exact h.trans (by rfl)

end ChainBC
